import Mathlib

/-!
# Verification of the `runge-kutta` repository's core engine (`rk.py`)

Shallow embedding of the class `RK` from `src/rk.py` over exact rationals:

* Python floats are modelled by `ℚ`;
* a derivative function `f(t, *y)` is modelled by `ℚ → List ℚ → ℚ`
  (and, for the exception-propagation analysis, by
  `ℚ → List ℚ → Except Unit ℚ`);
* Python's `round(x, 10)` (round half to even at ten decimal places) is
  modelled by `pyRound10`;
* the unbounded `while True` loop of `RK.aplicar` is modelled with an
  explicit fuel parameter, returning `none` when the fuel runs out,
  so that non-termination of the source loop is visible as
  "`none` for every fuel";
* list indexing `y[i]` is modelled by `List.getD` with default `0`
  (the indices used by the source are in range on well-formed inputs);
* each trajectory record `[tk, *yk]` of the source is modelled as the
  pair `(tk, yk) : ℚ × List ℚ`, which carries the same information.
-/

/-- Round half to even, the rounding mode of Python's builtin `round`:
the nearest integer, ties going to the even neighbour. -/
def roundHalfEven (x : ℚ) : ℤ :=
  if x - ⌊x⌋ < 1/2 then ⌊x⌋
  else if 1/2 < x - ⌊x⌋ then ⌊x⌋ + 1
  else if ⌊x⌋ % 2 = 0 then ⌊x⌋ else ⌊x⌋ + 1

/-- Model of Python's `round(x, 10)`: round half to even at ten decimal
places (the source fixes `qntdCasasArredondamento = 10`). -/
def pyRound10 (x : ℚ) : ℚ :=
  (roundHalfEven (x * 10 ^ 10) : ℚ) / 10 ^ 10

/-- The state of an `RK` instance after `RK.__init__` (src/rk.py lines
6-38): the stored constructor arguments plus the derived fields
`n = len(f)` and `c = [sum(ai) for ai in a]`.  The source constructor
performs no validation whatsoever: every argument is stored as given. -/
structure RK where
  f : List (ℚ → List ℚ → ℚ)
  t0 : ℚ
  y0 : List ℚ
  h : ℚ
  R : ℕ
  a : List (List ℚ)
  b : List ℚ

/-- Derived field `self.n = len(f)` (src/rk.py line 28). -/
def RK.n (M : RK) : ℕ := M.f.length

/-- Derived field `self.c = [ sum(ai) for ai in self.a ]`
(src/rk.py line 35). -/
def RK.c (M : RK) : List ℚ := M.a.map List.sum

/-- `RK.kappa` (src/rk.py lines 62-88), the stage evaluation:

    instante = t + self.h * self.c[r]
    termos_y = [ y[i] + self.h * sum( self.a[r][s] * self.kappa(f, t, y, s)
                                      for s in range(r-1) )
                 for i in range(self.n) ]
    return f(instante, *termos_y)

Note the inner sum ranges over `range(r-1)`, i.e. `s = 0, …, r-2`
(for `r = 0` Python's `range(-1)` is empty, as is Lean's `range (0-1)`). -/
def RK.kappa (M : RK) (f : ℚ → List ℚ → ℚ) (t : ℚ) (y : List ℚ) (r : ℕ) : ℚ :=
  let instante := t + M.h * M.c.getD r 0
  let termos := (List.range M.n).map fun i =>
    y.getD i 0 + M.h *
      ((List.range (r - 1)).attach.map fun s =>
        (M.a.getD r []).getD s.1 0 * M.kappa f t y s.1).sum
  f instante termos
termination_by r
decreasing_by
  have := List.mem_range.mp s.2
  omega

/-- `RK.phi` (src/rk.py lines 40-60):
`sum(self.b[r] * self.kappa(f, t, y, r) for r in range(self.R))`. -/
def RK.phi (M : RK) (f : ℚ → List ℚ → ℚ) (t : ℚ) (y : List ℚ) : ℚ :=
  ((List.range M.R).map fun r => M.b.getD r 0 * M.kappa f t y r).sum

/-- `RK.yk1` (src/rk.py lines 90-110): one step of the advancer,
`tk1 = tk + h` and `yk1[i] = yk[i] + h * phi(f[i], tk, yk)`. -/
def RK.yk1 (M : RK) (tk : ℚ) (yk : List ℚ) : ℚ × List ℚ :=
  (tk + M.h,
   (List.range M.n).map fun i =>
      yk.getD i 0 + M.h * M.phi (M.f.getD i (fun _ _ => 0)) tk yk)

/-- The `while True` loop of `RK.aplicar` (src/rk.py lines 132-135),
with explicit fuel:

    while True:
        tk, yk = self.yk1(tk, yk)
        pontos += [[tk, *yk]]
        if round(tk, self.qntdCasasArredondamento) >= tf: break

`none` means the fuel was exhausted before the break fired. -/
def RK.loop (M : RK) (tf : ℚ) :
    ℕ → ℚ → List ℚ → List (ℚ × List ℚ) → Option (List (ℚ × List ℚ))
  | 0, _, _, _ => none
  | fuel + 1, tk, yk, acc =>
    let st := M.yk1 tk yk
    let acc2 := acc ++ [st]
    if tf ≤ pyRound10 st.1 then some acc2
    else M.loop tf fuel st.1 st.2 acc2

/-- `RK.aplicar` (src/rk.py lines 112-136): initialises the trajectory
with `[[t0, *y0]]` and runs the loop from `(t0, y0)`. -/
def RK.aplicar (M : RK) (tf : ℚ) (fuel : ℕ) : Option (List (ℚ × List ℚ)) :=
  M.loop tf fuel M.t0 M.y0 [(M.t0, M.y0)]

/-- The stage evaluation as the specification words it (spec §4.2,
claim C1): shifted instant `t + h*c[r]`, shifted state components
`y[i] + h * Σ_{s < r} a[r][s] * stage(f, t, y, s)` — the sum ranging
over ALL strictly lower stage indices `s = 0, …, r-1` — and `f`
evaluated there.  Kept for comparison with the source's `RK.kappa`,
whose sum stops at `r-2`. -/
def RK.specStage (M : RK) (f : ℚ → List ℚ → ℚ) (t : ℚ) (y : List ℚ) (r : ℕ) : ℚ :=
  let instante := t + M.h * M.c.getD r 0
  let termos := (List.range M.n).map fun i =>
    y.getD i 0 + M.h *
      ((List.range r).attach.map fun s =>
        (M.a.getD r []).getD s.1 0 * M.specStage f t y s.1).sum
  f instante termos
termination_by r
decreasing_by
  exact List.mem_range.mp s.2

/-- `RK.__init__` (src/rk.py lines 6-38) viewed as an operation that could
in principle reject its arguments.  The source body contains no check and
no `raise` (and no `ConfigurationError` class exists anywhere in the
repository), so the translation always returns the constructed state;
the `Except` codomain makes the absence of any failure path visible. -/
def initRK (f : List (ℚ → List ℚ → ℚ)) (t0 : ℚ) (y0 : List ℚ) (h : ℚ)
    (R : ℕ) (a : List (List ℚ)) (b : List ℚ) : Except String RK :=
  Except.ok ⟨f, t0, y0, h, R, a, b⟩

/-- The tableau-validity condition in the specification's words (spec
§4.1, claim C2): `len(b) = R`, `a` has `R` rows each of length `R`, and
every row `r` is zero at every column `s ≥ r`.  This is the spec-side
definition, kept to compare with what the source constructor actually
checks (nothing). -/
def validTableau (R : ℕ) (a : List (List ℚ)) (b : List ℚ) : Prop :=
  b.length = R ∧ a.length = R ∧ (∀ row ∈ a, row.length = R) ∧
  ∀ r < R, ∀ s < R, r ≤ s → (a.getD r []).getD s 0 = 0

/-!
## Fallible model

The same code of `rk.py`, translated with Python's exception propagation
made explicit: a derivative function may fail (`Except Unit ℚ`), and
every caller propagates the first failure outward, exactly as an uncaught
Python exception unwinds through `kappa`, `phi`, `yk1` and `aplicar`
(none of which contains a `try`/`except`).
-/

/-- `sum(...)` over a generator of fallible values: Python evaluates the
generator left to right and the first raised exception aborts the sum. -/
def exceptSum : List (Except Unit ℚ) → Except Unit ℚ
  | [] => Except.ok 0
  | e :: es => do
      let v ← e
      let rest ← exceptSum es
      pure (v + rest)

/-- A list comprehension of fallible values: the first raised exception
aborts the whole comprehension. -/
def exceptList : List (Except Unit ℚ) → Except Unit (List ℚ)
  | [] => Except.ok []
  | e :: es => do
      let v ← e
      let rest ← exceptList es
      pure (v :: rest)

/-- The state of an `RK` instance whose derivative functions may raise. -/
structure RKE where
  f : List (ℚ → List ℚ → Except Unit ℚ)
  t0 : ℚ
  y0 : List ℚ
  h : ℚ
  R : ℕ
  a : List (List ℚ)
  b : List ℚ

/-- `self.n = len(f)` in the fallible model. -/
def RKE.n (M : RKE) : ℕ := M.f.length

/-- `self.c = [ sum(ai) for ai in self.a ]` in the fallible model. -/
def RKE.c (M : RKE) : List ℚ := M.a.map List.sum

/-- `RK.kappa` (src/rk.py lines 62-88) in the fallible model: the
comprehension `termos_y` is evaluated before `f` is called, and the
first exception raised by a recursive stage evaluation propagates. -/
def RKE.kappaE (M : RKE) (f : ℚ → List ℚ → Except Unit ℚ)
    (t : ℚ) (y : List ℚ) (r : ℕ) : Except Unit ℚ :=
  let instante := t + M.h * M.c.getD r 0
  match exceptList ((List.range M.n).map fun i =>
      match exceptSum ((List.range (r - 1)).attach.map fun s =>
          (M.kappaE f t y s.1).map fun k => (M.a.getD r []).getD s.1 0 * k) with
      | Except.ok ksum => Except.ok (y.getD i 0 + M.h * ksum)
      | Except.error u => Except.error u) with
  | Except.ok termos => f instante termos
  | Except.error u => Except.error u
termination_by r
decreasing_by
  have := List.mem_range.mp s.2
  omega

/-- `RK.phi` (src/rk.py lines 40-60) in the fallible model. -/
def RKE.phiE (M : RKE) (f : ℚ → List ℚ → Except Unit ℚ)
    (t : ℚ) (y : List ℚ) : Except Unit ℚ :=
  exceptSum ((List.range M.R).map fun r =>
    (M.kappaE f t y r).map fun k => M.b.getD r 0 * k)

/-- `RK.yk1` (src/rk.py lines 90-110) in the fallible model. -/
def RKE.yk1E (M : RKE) (tk : ℚ) (yk : List ℚ) : Except Unit (ℚ × List ℚ) :=
  match exceptList ((List.range M.n).map fun i =>
      (M.phiE (M.f.getD i (fun _ _ => Except.ok 0)) tk yk).map fun p =>
        yk.getD i 0 + M.h * p) with
  | Except.ok ys => Except.ok (tk + M.h, ys)
  | Except.error u => Except.error u

/-- The `while True` loop of `RK.aplicar` (src/rk.py lines 132-135) in
the fallible model: an exception raised by `yk1` unwinds out of the loop
at once, and the local list `pontos` accumulated so far (`acc`) is
discarded — the caller sees only the failure. -/
def RKE.loopE (M : RKE) (tf : ℚ) :
    ℕ → ℚ → List ℚ → List (ℚ × List ℚ) →
      Option (Except Unit (List (ℚ × List ℚ)))
  | 0, _, _, _ => none
  | fuel + 1, tk, yk, acc =>
    match M.yk1E tk yk with
    | Except.error u => some (Except.error u)
    | Except.ok st =>
      let acc2 := acc ++ [st]
      if tf ≤ pyRound10 st.1 then some (Except.ok acc2)
      else M.loopE tf fuel st.1 st.2 acc2

/-- `RK.aplicar` (src/rk.py lines 112-136) in the fallible model. -/
def RKE.aplicarE (M : RKE) (tf : ℚ) (fuel : ℕ) :
    Option (Except Unit (List (ℚ × List ℚ))) :=
  M.loopE tf fuel M.t0 M.y0 [(M.t0, M.y0)]

/-!
## Concrete instances used by the analysis
-/

/-- The scalar derivative `f(t, y) = y` of the spec's concrete scenario. -/
def fId : ℚ → List ℚ → ℚ := fun _ y => y.getD 0 0

/-- A derivative function that raises on every evaluation. -/
def fFailE : ℚ → List ℚ → Except Unit ℚ := fun _ _ => Except.error ()

/-- A two-stage instance with `a = [[0,0],[1,0]]`, `h = 1`, used to
exhibit the stage-recursion range of `RK.kappa` at stage 1. -/
def rkDemo : RK := ⟨[fId], 0, [1], 1, 2, [[0, 0], [1, 0]], [1/2, 1/2]⟩

/-- The spec's concrete scenario (§8, claim C6): `f(t, y) = y`,
`t0 = 0`, `y0 = [1]`, `h = 1/10`, `R = 2`, `a = [[0,0],[2/3,0]]`,
`b = [1/4, 3/4]`. -/
def rkExp : RK := ⟨[fId], 0, [1], 1/10, 2, [[0, 0], [2/3, 0]], [1/4, 3/4]⟩

/-- An instance whose tableau violates the explicit-method condition
(`a[0][0] = 5 ≠ 0` sits at column `s = 0 ≥ r = 0`). -/
def rkBad : RK := ⟨[fId], 0, [1], 1, 1, [[5]], [1]⟩

/-- A zero-equation instance with the tiny step `h = 10⁻¹¹`, below the
granularity of `round(·, 10)`. -/
def rkTinyA : RK := ⟨[], 0, [], 1/10^11, 0, [], []⟩

/-- A zero-equation instance with step `h = 8·10⁻¹¹`, whose first step
rounds up to `10⁻¹⁰`. -/
def rkTinyB : RK := ⟨[], 0, [], 8/10^11, 0, [], []⟩

/-- A zero-equation instance with step `h = 1`, used as a terminating
run for witnesses. -/
def rkUnit : RK := ⟨[], 0, [], 1, 0, [], []⟩

/-- A zero-equation instance with step `h = 0`, on which the source loop
never terminates. -/
def rkZeroH : RK := ⟨[], 0, [], 0, 0, [], []⟩

/-- A fallible instance whose single derivative function always raises. -/
def rkFailE : RKE := ⟨[fFailE], 0, [1], 1/10, 1, [[0]], [1]⟩

/-- The trajectory the source produces on the spec's concrete scenario:
eleven records at instants `0, 1/10, …, 1`; since stage 1 of `RK.kappa`
ignores `a[1][0]` (its sum stops at `r - 2`), each step multiplies the
state by `11/10`. -/
def expTraj : List (ℚ × List ℚ) :=
  [(0, [1]), (1/10, [11/10]), (2/10, [121/100]), (3/10, [1331/1000]),
   (4/10, [14641/10000]), (5/10, [161051/100000]), (6/10, [1771561/10^6]),
   (7/10, [19487171/10^7]), (8/10, [214358881/10^8]),
   (9/10, [2357947691/10^9]), (1, [25937424601/10^10])]

/-!
## Helper lemmas
-/

theorem roundHalfEven_intCast (m : ℤ) : roundHalfEven (m : ℚ) = m := by
  simp [roundHalfEven]

theorem abs_roundHalfEven_sub (x : ℚ) : |(roundHalfEven x : ℚ) - x| ≤ 1/2 := by
  have h1 : ((⌊x⌋ : ℤ) : ℚ) ≤ x := Int.floor_le x
  have h2 : x < (⌊x⌋ : ℚ) + 1 := Int.lt_floor_add_one x
  unfold roundHalfEven
  split_ifs with ha hb hc <;>
    (rw [abs_le]; push_cast; constructor <;> linarith)

theorem abs_pyRound10_sub (x : ℚ) : |pyRound10 x - x| ≤ 1/(2 * 10^10) := by
  have h := abs_roundHalfEven_sub (x * 10^10)
  have hx : pyRound10 x - x =
      ((roundHalfEven (x * 10^10) : ℚ) - x * 10^10) / 10^10 := by
    unfold pyRound10; ring
  have h10 : (0 : ℚ) < 10^10 := by norm_num
  rw [hx, abs_div, abs_of_pos h10, div_le_iff₀ h10]
  calc |(roundHalfEven (x * 10^10) : ℚ) - x * 10^10| ≤ 1/2 := h
    _ = 1/(2 * 10^10) * 10^10 := by norm_num

theorem pyRound10_le_add (x : ℚ) : pyRound10 x ≤ x + 1/(2 * 10^10) := by
  have := (abs_le.mp (abs_pyRound10_sub x)).2
  linarith

theorem sub_le_pyRound10 (x : ℚ) : x - 1/(2 * 10^10) ≤ pyRound10 x := by
  have := (abs_le.mp (abs_pyRound10_sub x)).1
  linarith

/-- Attach-free restatement of the `RK.kappa` recursion. -/
theorem RK.kappa_eq (M : RK) (f : ℚ → List ℚ → ℚ) (t : ℚ) (y : List ℚ) (r : ℕ) :
    M.kappa f t y r =
      f (t + M.h * M.c.getD r 0)
        ((List.range M.n).map fun i =>
          y.getD i 0 + M.h *
            ((List.range (r - 1)).map fun s =>
              (M.a.getD r []).getD s 0 * M.kappa f t y s).sum) := by
  rw [RK.kappa]
  congr 1
  refine List.map_congr_left fun i _ => ?_
  congr 2
  exact congrArg List.sum
    (List.attach_map_coe (List.range (r - 1))
      (fun s => (M.a.getD r []).getD s 0 * M.kappa f t y s))

/-- Attach-free restatement of the `RK.specStage` recursion. -/
theorem RK.specStage_eq (M : RK) (f : ℚ → List ℚ → ℚ) (t : ℚ) (y : List ℚ) (r : ℕ) :
    M.specStage f t y r =
      f (t + M.h * M.c.getD r 0)
        ((List.range M.n).map fun i =>
          y.getD i 0 + M.h *
            ((List.range r).map fun s =>
              (M.a.getD r []).getD s 0 * M.specStage f t y s).sum) := by
  rw [RK.specStage]
  congr 1
  refine List.map_congr_left fun i _ => ?_
  congr 2
  exact congrArg List.sum
    (List.attach_map_coe (List.range r)
      (fun s => (M.a.getD r []).getD s 0 * M.specStage f t y s))

theorem RK.yk1_fst (M : RK) (tk : ℚ) (yk : List ℚ) :
    (M.yk1 tk yk).1 = tk + M.h := rfl

/-- A terminating run of the loop extends the accumulator by at least
one record. -/
theorem RK.loop_extends (M : RK) (tf : ℚ) :
    ∀ fuel tk yk acc pts, M.loop tf fuel tk yk acc = some pts →
      ∃ ext, pts = acc ++ ext ∧ ext ≠ [] := by
  intro fuel
  induction fuel with
  | zero => intro tk yk acc pts hl; simp [RK.loop] at hl
  | succ n ih =>
      intro tk yk acc pts hl
      simp only [RK.loop] at hl
      by_cases hc : tf ≤ pyRound10 (M.yk1 tk yk).1
      · rw [if_pos hc] at hl
        exact ⟨[M.yk1 tk yk], (Option.some.inj hl).symm, by simp⟩
      · rw [if_neg hc] at hl
        obtain ⟨ext, hext, -⟩ := ih _ _ _ _ hl
        exact ⟨[M.yk1 tk yk] ++ ext, by simp [hext], by simp⟩

/-- A terminating run of the loop ends in a record whose rounded instant
has reached `tf`, overshooting `tf + h` by less than the rounding slack
`1/(2·10¹⁰)`, while every record the loop appended before it has a
rounded instant strictly below `tf`. -/
theorem RK.loop_final (M : RK) (tf : ℚ) :
    ∀ fuel tk yk acc pts,
      M.loop tf fuel tk yk acc = some pts →
      tk < tf + 1/(2 * 10^10) →
      ∃ last, pts.getLast? = some last ∧ tf ≤ pyRound10 last.1 ∧
        last.1 < tf + M.h + 1/(2 * 10^10) ∧
        ∀ j, acc.length ≤ j → j + 1 < pts.length →
          pyRound10 (pts.getD j (0, [])).1 < tf := by
  intro fuel
  induction fuel with
  | zero => intro tk yk acc pts hl _; simp [RK.loop] at hl
  | succ n ih =>
      intro tk yk acc pts hl htk
      simp only [RK.loop] at hl
      by_cases hc : tf ≤ pyRound10 (M.yk1 tk yk).1
      · rw [if_pos hc] at hl
        obtain rfl : acc ++ [M.yk1 tk yk] = pts := Option.some.inj hl
        refine ⟨M.yk1 tk yk, List.getLast?_concat _, hc, ?_, ?_⟩
        · rw [RK.yk1_fst]; linarith
        · intro j hj1 hj2
          rw [List.length_append, List.length_singleton] at hj2
          omega
      · rw [if_neg hc] at hl
        have hlt : (M.yk1 tk yk).1 < tf + 1/(2 * 10^10) := by
          have h1 := sub_le_pyRound10 (M.yk1 tk yk).1
          have h2 := lt_of_not_le hc
          linarith
        obtain ⟨last, hlast, hge, hover, hall⟩ := ih _ _ _ _ hl hlt
        refine ⟨last, hlast, hge, hover, ?_⟩
        intro j hj1 hj2
        rcases eq_or_lt_of_le hj1 with heq | hlt3
        · obtain ⟨ext, hext, -⟩ := M.loop_extends tf n _ _ _ _ hl
          subst heq
          have hget : pts.getD acc.length (0, []) = M.yk1 tk yk := by
            rw [hext, List.getD_eq_getElem?_getD, List.getElem?_append,
              if_pos (by simp), List.getElem?_concat_length]
            rfl
          rw [hget]
          exact lt_of_not_le hc
        · refine hall j ?_ hj2
          rw [List.length_append, List.length_singleton]
          omega

/-- Appending a record whose instant is `h` past the last instant of a
list preserves the `h`-spacing of consecutive instants. -/
theorem spaced_concat {h : ℚ} {L : List (ℚ × List ℚ)} {tk : ℚ} {yl : List ℚ}
    (x : ℚ × List ℚ)
    (hsp : ∀ k, k + 1 < L.length →
      (L.getD (k+1) (0, [])).1 = (L.getD k (0, [])).1 + h)
    (hlast : L.getLast? = some (tk, yl)) (hx : x.1 = tk + h) :
    ∀ k, k + 1 < (L ++ [x]).length →
      ((L ++ [x]).getD (k+1) (0, [])).1 = ((L ++ [x]).getD k (0, [])).1 + h := by
  intro k hk
  rw [List.length_append, List.length_singleton] at hk
  have hL : L ≠ [] := by
    intro hnil
    rw [hnil] at hlast
    simp at hlast
  have hLlen : 1 ≤ L.length := by
    cases L with
    | nil => exact absurd rfl hL
    | cons a l => simp
  rcases Nat.lt_or_ge (k + 1) L.length with hlt | hge
  · rw [List.getD_append _ _ _ _ hlt, List.getD_append _ _ _ _ (by omega)]
    exact hsp k hlt
  · have hkeq : k + 1 = L.length := by omega
    have hright : (L ++ [x]).getD (k+1) (0, []) = x := by
      rw [List.getD_eq_getElem?_getD, hkeq, List.getElem?_concat_length]
      rfl
    have hleft : (L ++ [x]).getD k (0, []) = (tk, yl) := by
      rw [List.getD_append _ _ _ _ (by omega), List.getD_eq_getElem?_getD]
      have : k = L.length - 1 := by omega
      rw [this, ← List.getLast?_eq_getElem?, hlast]
      rfl
    rw [hright, hleft, hx]

/-- A terminating run of the loop preserves the `h`-spacing of
consecutive recorded instants, provided the accumulator is `h`-spaced
and ends at the current instant `tk`. -/
theorem RK.loop_spaced (M : RK) (tf : ℚ) :
    ∀ fuel tk yk acc pts, M.loop tf fuel tk yk acc = some pts →
      (∃ yl, acc.getLast? = some (tk, yl)) →
      (∀ k, k + 1 < acc.length →
        (acc.getD (k+1) (0, [])).1 = (acc.getD k (0, [])).1 + M.h) →
      ∀ k, k + 1 < pts.length →
        (pts.getD (k+1) (0, [])).1 = (pts.getD k (0, [])).1 + M.h := by
  intro fuel
  induction fuel with
  | zero => intro tk yk acc pts hl _ _; simp [RK.loop] at hl
  | succ n ih =>
      intro tk yk acc pts hl hlast hsp
      obtain ⟨yl, hlast⟩ := hlast
      simp only [RK.loop] at hl
      by_cases hc : tf ≤ pyRound10 (M.yk1 tk yk).1
      · rw [if_pos hc] at hl
        obtain rfl : acc ++ [M.yk1 tk yk] = pts := Option.some.inj hl
        exact spaced_concat _ hsp hlast (RK.yk1_fst M tk yk)
      · rw [if_neg hc] at hl
        refine ih _ _ _ _ hl ⟨(M.yk1 tk yk).2, ?_⟩
          (spaced_concat _ hsp hlast (RK.yk1_fst M tk yk))
        rw [List.getLast?_concat]

theorem rkDemo_proj : rkDemo.n = 1 ∧ rkDemo.h = 1 ∧
    rkDemo.a = [[0, 0], [1, 0]] ∧ rkDemo.c = [0, 1] := by
  refine ⟨rfl, rfl, rfl, ?_⟩
  norm_num [RK.c, rkDemo]

theorem rkExp_proj : rkExp.n = 1 ∧ rkExp.h = 1/10 ∧
    rkExp.a = [[0, 0], [2/3, 0]] ∧ rkExp.c = [0, 2/3] ∧ rkExp.f = [fId] ∧
    rkExp.b = [1/4, 3/4] ∧ rkExp.R = 2 := by
  refine ⟨rfl, rfl, rfl, ?_, rfl, rfl, rfl⟩
  norm_num [RK.c, rkExp]

/-- One step of the source on the concrete scenario: because stage 1 of
`RK.kappa` sums over `range(0)` (empty) rather than `range(1)`, both
stages equal `q` and the step multiplies the state by `11/10`. -/
theorem rkExp_step (t q : ℚ) : rkExp.yk1 t [q] = (t + 1/10, [11/10 * q]) := by
  obtain ⟨hn, hh, ha, hc, hf, hb, hR⟩ := rkExp_proj
  have h0 : rkExp.kappa fId t [q] 0 = q := by
    rw [RK.kappa_eq]
    norm_num [hn, hh, ha, hc, fId]
  have h1 : rkExp.kappa fId t [q] 1 = q := by
    rw [RK.kappa_eq]
    norm_num [hn, hh, ha, hc, fId]
  norm_num [RK.yk1, RK.phi, List.range_succ, h0, h1, hn, hh, hf, hb, hR, fId]
  ring

/-!
## The claims
-/

/-- Claim C1 (code bug).  The claim states the standard explicit
Runge-Kutta stage recursion: the shifted state of stage `r` accumulates
every strictly lower stage `s = 0, …, r-1`.  The source's `RK.kappa`
sums over Python's `range(r-1)`, i.e. only `s = 0, …, r-2`, so stage `r`
ignores stage `r-1` entirely.  Concretely, with `h = 1`,
`a = [[0,0],[1,0]]`, `f(t, y) = y` and state `[1]`: the claimed stage 1
is `f(t + h·c₁, [y + h·a₁₀·f(t, [y])]) = 2` (as `RK.specStage`
computes), but the source's `RK.kappa` yields `1`, leaving `a[1][0]`
without any effect. -/
theorem kappa_stage_range_divergence :
    rkDemo.kappa fId 0 [1] 1 = 1 ∧ rkDemo.specStage fId 0 [1] 1 = 2 ∧
      (1 : ℚ) ≠ 2 := by
  obtain ⟨hn, hh, ha, hc⟩ := rkDemo_proj
  refine ⟨?_, ?_, by norm_num⟩
  · rw [RK.kappa_eq]
    norm_num [hn, hh, ha, hc, fId]
  · have h0 : rkDemo.specStage fId 0 [1] 0 = 1 := by
      rw [RK.specStage_eq]
      norm_num [hn, hh, ha, hc, fId]
    rw [RK.specStage_eq]
    norm_num [hn, hh, ha, hc, fId, List.range_succ, h0]

/-- Claim C2, counterexample.  The tableau `R = 1`, `a = [[5]]`,
`b = [1]` violates the explicit-method condition (`a[0][0] = 5 ≠ 0` at
column `s = 0 ≥ r = 0`), yet construction succeeds — the source
`__init__` contains no check and no raise — and the constructed
instance even integrates happily, returning a trajectory. -/
theorem initRK_accepts_invalid_tableau :
    ¬ validTableau 1 [[5]] [1] ∧
    initRK [fId] 0 [1] 1 1 [[5]] [1] = Except.ok rkBad ∧
    rkBad.aplicar 1 1 = some [(0, [1]), (1, [2])] := by
  refine ⟨?_, rfl, ?_⟩
  · rintro ⟨-, -, -, h4⟩
    have h5 := h4 0 (by norm_num) 0 (by norm_num) (le_refl 0)
    norm_num at h5
  · have hn : rkBad.n = 1 := rfl
    have hh : rkBad.h = 1 := rfl
    have ha : rkBad.a = [[5]] := rfl
    have hf : rkBad.f = [fId] := rfl
    have hb : rkBad.b = [1] := rfl
    have hR : rkBad.R = 1 := rfl
    have ht0 : rkBad.t0 = 0 := rfl
    have hy0 : rkBad.y0 = [1] := rfl
    have hc : rkBad.c = [5] := by norm_num [RK.c, rkBad]
    have h0 : rkBad.kappa fId 0 [1] 0 = 1 := by
      rw [RK.kappa_eq]
      norm_num [hn, hh, ha, hc, fId]
    have hstep : rkBad.yk1 0 [1] = (1, [2]) := by
      norm_num [RK.yk1, RK.phi, List.range_succ, h0, hn, hh, hf, hb, hR, fId]
    norm_num [RK.aplicar, RK.loop, hstep, ht0, hy0, pyRound10, roundHalfEven]

/-- Claim C2, amended.  Construction never fails: the source `__init__`
performs no validation of `(R, a, b)` (nor of anything else) — it
stores every argument as given and computes `c` as the row sums of `a`,
whatever the tableau's shape or content. -/
theorem initRK_never_fails (f : List (ℚ → List ℚ → ℚ)) (t0 : ℚ)
    (y0 : List ℚ) (h : ℚ) (R : ℕ) (a : List (List ℚ)) (b : List ℚ) :
    ∃ M : RK, initRK f t0 y0 h R a b = Except.ok M ∧
      M.R = R ∧ M.a = a ∧ M.b = b ∧ M.c = a.map List.sum ∧
      M.f = f ∧ M.t0 = t0 ∧ M.y0 = y0 ∧ M.h = h :=
  ⟨⟨f, t0, y0, h, R, a, b⟩, rfl, rfl, rfl, rfl, rfl, rfl, rfl, rfl, rfl⟩

/-- Claim C3, counterexample.  A call with `tf = -1 ≤ t0 = 0` and
`h = 1 > 0` is not rejected: `aplicar` performs no parameter validation
and returns a two-record trajectory instead of failing fast. -/
theorem aplicar_accepts_bad_params :
    (-1 : ℚ) ≤ rkUnit.t0 ∧ 0 < rkUnit.h ∧
    rkUnit.aplicar (-1) 1 = some [(0, []), (1, [])] := by
  refine ⟨by norm_num [rkUnit], by norm_num [rkUnit], ?_⟩
  have hstep : rkUnit.yk1 0 [] = (1, []) := by
    norm_num [RK.yk1, RK.n, rkUnit]
  norm_num [RK.aplicar, RK.loop, hstep, show rkUnit.t0 = 0 from rfl,
    show rkUnit.y0 = [] from rfl, pyRound10, roundHalfEven]

/-- The loop never terminates when the step size is zero and the rounded
current instant lies strictly below `tf`: the instant never changes, so
the break condition can never fire. -/
theorem RK.loop_zero_h (M : RK) (tf : ℚ) (hh : M.h = 0) :
    ∀ fuel tk yk acc, pyRound10 tk < tf →
      M.loop tf fuel tk yk acc = none := by
  intro fuel
  induction fuel with
  | zero => intro tk yk acc _; rfl
  | succ n ih =>
      intro tk yk acc hr
      simp only [RK.loop]
      have h1 : (M.yk1 tk yk).1 = tk := by rw [RK.yk1_fst, hh, add_zero]
      rw [h1, if_neg (not_le.mpr hr)]
      exact ih _ _ _ hr

/-- Claim C3, amended.  `aplicar` performs no call-time validation of
its run parameters.  With a step of at least the rounding granularity
(`h ≥ 10⁻¹⁰`) and a target `tf ≤ t0`, it silently returns a two-record
trajectory after a single step; with `h = 0` and the rounded `t0` below
`tf`, the loop never terminates (the run yields `none` for every fuel).
No `ConfigurationError` is raised in either case — the class does not
exist in the repository. -/
theorem aplicar_no_call_time_validation :
    (∀ (M : RK) (tf : ℚ) (fuel : ℕ), 1/10^10 ≤ M.h → tf ≤ M.t0 →
      1 ≤ fuel → M.aplicar tf fuel = some [(M.t0, M.y0), M.yk1 M.t0 M.y0]) ∧
    (∀ (M : RK) (tf : ℚ) (fuel : ℕ), M.h = 0 → pyRound10 M.t0 < tf →
      M.aplicar tf fuel = none) := by
  constructor
  · intro M tf fuel h1 h2 hf
    obtain ⟨k, rfl⟩ : ∃ k, fuel = k + 1 := ⟨fuel - 1, by omega⟩
    have hc : tf ≤ pyRound10 (M.yk1 M.t0 M.y0).1 := by
      rw [RK.yk1_fst]
      have h3 := sub_le_pyRound10 (M.t0 + M.h)
      linarith
    unfold RK.aplicar
    simp only [RK.loop]
    rw [if_pos hc]
    rfl
  · intro M tf fuel hh hr
    exact M.loop_zero_h tf hh fuel M.t0 M.y0 _ hr

/-- Witness for C3's amended theorem: with `h = 1 ≥ 10⁻¹⁰` and
`tf = 0 ≤ t0 = 0` the run returns two records after one step, and with
`h = 0` and `tf = 1 > 0 = round(t0)` the loop runs out of any fuel. -/
theorem aplicar_no_call_time_validation_witness :
    rkUnit.aplicar 0 3 = some [(rkUnit.t0, rkUnit.y0),
      rkUnit.yk1 rkUnit.t0 rkUnit.y0] ∧
    rkZeroH.aplicar 1 5 = none := by
  constructor
  · exact aplicar_no_call_time_validation.1 rkUnit 0 3
      (by norm_num [show rkUnit.h = 1 from rfl])
      (by norm_num [show rkUnit.t0 = 0 from rfl]) (by norm_num)
  · exact aplicar_no_call_time_validation.2 rkZeroH 1 5 rfl
      (by norm_num [show rkZeroH.t0 = 0 from rfl, pyRound10, roundHalfEven])

theorem rkUnit_step (t : ℚ) : rkUnit.yk1 t [] = (t + 1, []) := by
  norm_num [RK.yk1, RK.n, rkUnit]

theorem rkTinyA_step (t : ℚ) : rkTinyA.yk1 t [] = (t + 1/10^11, []) := by
  norm_num [RK.yk1, RK.n, rkTinyA]

theorem rkTinyB_step (t : ℚ) : rkTinyB.yk1 t [] = (t + 8/10^11, []) := by
  norm_num [RK.yk1, RK.n, rkTinyB]

theorem rkUnit_run1 : rkUnit.aplicar 1 2 = some [(0, []), (1, [])] := by
  norm_num [RK.aplicar, RK.loop, rkUnit_step, show rkUnit.t0 = 0 from rfl,
    show rkUnit.y0 = [] from rfl, pyRound10, roundHalfEven]

theorem rkUnit_run2 : rkUnit.aplicar 2 5 = some [(0, []), (1, []), (2, [])] := by
  norm_num [RK.aplicar, RK.loop, rkUnit_step, show rkUnit.t0 = 0 from rfl,
    show rkUnit.y0 = [] from rfl, pyRound10, roundHalfEven]

theorem rkUnit_run3 : rkUnit.aplicar 3 9 =
    some [(0, []), (1, []), (2, []), (3, [])] := by
  norm_num [RK.aplicar, RK.loop, rkUnit_step, show rkUnit.t0 = 0 from rfl,
    show rkUnit.y0 = [] from rfl, pyRound10, roundHalfEven]

theorem rkUnit_runNeg : rkUnit.aplicar (-5) 1 = some [(0, []), (1, [])] := by
  norm_num [RK.aplicar, RK.loop, rkUnit_step, show rkUnit.t0 = 0 from rfl,
    show rkUnit.y0 = [] from rfl, pyRound10, roundHalfEven]

/-- Claim C4, counterexample.  Two runs with `h > 0` and `tf > t0` break
the claimed bounds on the final instant.  With `h = 10⁻¹¹` and
`tf = 10⁻¹¹`, the rounded instants `round(k·10⁻¹¹, 10)` stay `0` up to
`k = 5` (the tie at `5·10⁻¹¹` rounds to the even neighbour `0`), so the
loop only stops at `t = 6·10⁻¹¹`, overshooting `tf` by `5h > h`.  With
`h = 8·10⁻¹¹` and `tf = 9·10⁻¹¹`, the first instant `8·10⁻¹¹` rounds up
to `10⁻¹⁰ ≥ tf`, so the loop stops at a final instant strictly before
`tf`. -/
theorem aplicar_rounding_breaks_bounds :
    (0 < rkTinyA.h ∧ rkTinyA.t0 < 1/10^11 ∧
      rkTinyA.aplicar (1/10^11) 10 =
        some [(0, []), (1/10^11, []), (2/10^11, []), (3/10^11, []),
              (4/10^11, []), (5/10^11, []), (6/10^11, [])] ∧
      1/10^11 + rkTinyA.h < (6/10^11 : ℚ)) ∧
    (0 < rkTinyB.h ∧ rkTinyB.t0 < 9/10^11 ∧
      rkTinyB.aplicar (9/10^11) 2 = some [(0, []), (8/10^11, [])] ∧
      (8/10^11 : ℚ) < 9/10^11) := by
  refine ⟨⟨by norm_num [show rkTinyA.h = 1/10^11 from rfl],
           by norm_num [show rkTinyA.t0 = 0 from rfl], ?_,
           by norm_num [show rkTinyA.h = 1/10^11 from rfl]⟩,
          by norm_num [show rkTinyB.h = 8/10^11 from rfl],
          by norm_num [show rkTinyB.t0 = 0 from rfl], ?_, by norm_num⟩
  · norm_num [RK.aplicar, RK.loop, rkTinyA_step, show rkTinyA.t0 = 0 from rfl,
      show rkTinyA.y0 = [] from rfl, pyRound10, roundHalfEven]
  · norm_num [RK.aplicar, RK.loop, rkTinyB_step, show rkTinyB.t0 = 0 from rfl,
      show rkTinyB.y0 = [] from rfl, pyRound10, roundHalfEven]

/-- Claim C4, amended.  For every terminating run with `h > 0` and
`tf > t0`: the loop stops at the first step whose instant rounded to ten
decimal places reaches `tf` — every record the loop appended before the
final one has a rounded instant strictly below `tf` — and the final
recorded instant `t` satisfies `tf - 5·10⁻¹¹ ≤ t < tf + h + 5·10⁻¹¹`.
(Because the comparison rounds, `t` can lie strictly before `tf`, or
exceed `tf` by more than one step `h`, by up to the rounding slack
`5·10⁻¹¹`; the claim's unqualified bounds hold only for steps above the
rounding granularity.) -/
theorem aplicar_termination_policy (M : RK) (tf : ℚ) (fuel : ℕ)
    (pts : List (ℚ × List ℚ)) (_h0 : 0 < M.h) (h1 : M.t0 < tf)
    (happ : M.aplicar tf fuel = some pts) :
    ∃ last, pts.getLast? = some last ∧
      tf ≤ pyRound10 last.1 ∧
      tf - 1/(2 * 10^10) ≤ last.1 ∧
      last.1 < tf + M.h + 1/(2 * 10^10) ∧
      ∀ j, 1 ≤ j → j + 1 < pts.length →
        pyRound10 (pts.getD j (0, [])).1 < tf := by
  obtain ⟨last, hlast, hge, hover, hall⟩ :=
    M.loop_final tf fuel M.t0 M.y0 _ pts happ (by linarith)
  refine ⟨last, hlast, hge, ?_, hover, ?_⟩
  · have := pyRound10_le_add last.1
    linarith
  · intro j hj hj2
    exact hall j (by simpa using hj) hj2

/-- Witness for C4's amended theorem, on the run `rkUnit.aplicar 1 2`
whose trajectory is `[(0, []), (1, [])]`. -/
theorem aplicar_termination_policy_witness :
    ∃ last, ([(0, []), (1, [])] : List (ℚ × List ℚ)).getLast? = some last ∧
      (1 : ℚ) ≤ pyRound10 last.1 ∧
      (1 : ℚ) - 1/(2 * 10^10) ≤ last.1 ∧
      last.1 < 1 + rkUnit.h + 1/(2 * 10^10) ∧
      ∀ j, 1 ≤ j → j + 1 < ([(0, []), (1, [])] : List (ℚ × List ℚ)).length →
        pyRound10 (([(0, []), (1, [])] : List (ℚ × List ℚ)).getD j (0, [])).1 < 1 :=
  aplicar_termination_policy rkUnit 1 2 [(0, []), (1, [])]
    (by norm_num [show rkUnit.h = 1 from rfl])
    (by norm_num [show rkUnit.t0 = 0 from rfl])
    rkUnit_run1

/-- Claim C5.  One step of the advancer: the next instant is `tk + h`;
the next state has one component per equation, and component `i` equals
`yk[i] + h * Σ_r b[r] * kappa(f[i], tk, yk, r)` — every component built
from the same snapshot `(tk, yk)`, which the (pure) step leaves
untouched. -/
theorem yk1_step_formula (M : RK) (tk : ℚ) (yk : List ℚ) :
    (M.yk1 tk yk).1 = tk + M.h ∧
    (M.yk1 tk yk).2.length = M.n ∧
    ∀ i, i < M.n → (M.yk1 tk yk).2.getD i 0 =
      yk.getD i 0 + M.h * ((List.range M.R).map fun r =>
        M.b.getD r 0 * M.kappa (M.f.getD i (fun _ _ => 0)) tk yk r).sum := by
  refine ⟨rfl, by simp [RK.yk1], ?_⟩
  intro i hi
  show ((List.range M.n).map fun i =>
      yk.getD i 0 + M.h * M.phi (M.f.getD i (fun _ _ => 0)) tk yk).getD i 0 = _
  rw [List.getD_eq_getElem?_getD, List.getElem?_map, List.getElem?_range hi]
  simp [RK.phi]

/-- Witness for C5 at the concrete scenario instance, equation `i = 0`,
snapshot `(0, [1])`. -/
theorem yk1_step_formula_witness :
    (rkExp.yk1 0 [1]).1 = 0 + rkExp.h ∧
    (rkExp.yk1 0 [1]).2.getD 0 0 =
      ([1] : List ℚ).getD 0 0 + rkExp.h * ((List.range rkExp.R).map fun r =>
        rkExp.b.getD r 0 * rkExp.kappa (rkExp.f.getD 0 (fun _ _ => 0)) 0 [1] r).sum :=
  ⟨(yk1_step_formula rkExp 0 [1]).1,
   (yk1_step_formula rkExp 0 [1]).2.2 0 (by norm_num [RK.n, rkExp])⟩

/-- Claim C6.  The spec's concrete scenario: `f(t, y) = y`, `t0 = 0`,
`y0 = [1]`, `h = 1/10`, the tableau `R = 2`, `a = [[0,0],[2/3,0]]`,
`b = [1/4, 3/4]`, `tf = 1`.  The run terminates (with any fuel ≥ 10) in
exactly eleven records at the instants `0, 1/10, …, 1`, and the final
state `(11/10)¹⁰ = 2.5937424601` approximates `e ≈ 2.71828` within five
percent (the relative error is ≈ 4.6%: the stage-recursion off-by-one
makes the scheme effectively Euler's method here, so the error is far
larger than the claimed second-order scheme would give, yet still under
"a few percent"). -/
theorem exp_scenario :
    rkExp.aplicar 1 20 = some expTraj ∧
    expTraj.length = 11 ∧
    expTraj.map Prod.fst =
      [0, 1/10, 2/10, 3/10, 4/10, 5/10, 6/10, 7/10, 8/10, 9/10, 1] ∧
    expTraj.getLast? = some (1, [25937424601/10^10]) ∧
    |25937424601/10^10 - 271828/100000| ≤ (5/100) * (271828/100000 : ℚ) := by
  refine ⟨?_, by norm_num [expTraj], by norm_num [expTraj], by norm_num [expTraj],
    by rw [abs_le]; constructor <;> norm_num⟩
  norm_num [RK.aplicar, RK.loop, rkExp_step, show rkExp.t0 = 0 from rfl,
    show rkExp.y0 = [1] from rfl, expTraj, pyRound10, roundHalfEven]

theorem rkFailE_yk1E : rkFailE.yk1E 0 [1] = Except.error () := by
  have hk : rkFailE.kappaE fFailE 0 [1] 0 = Except.error () := by
    rw [RKE.kappaE]
    simp [show rkFailE.n = 1 from rfl, exceptSum, exceptList, fFailE]
    rfl
  simp [RKE.yk1E, RKE.phiE, show rkFailE.n = 1 from rfl,
    show rkFailE.R = 1 from rfl, show rkFailE.f = [fFailE] from rfl,
    List.range_succ, hk, exceptSum, exceptList]
  rfl

/-- Claim C7.  If the step evaluation raises at any point of a run —
i.e. `yk1` propagates a derivative function's exception, there being no
`try`/`except` anywhere in `rk.py` — then the loop returns exactly that
failure, whatever trajectory prefix `acc` it had accumulated: the
partial trajectory is discarded and the caller receives only the
failure. -/
theorem loopE_propagates_failure (M : RKE) (tf tk : ℚ) (yk : List ℚ)
    (acc : List (ℚ × List ℚ)) (fuel : ℕ) (u : Unit)
    (herr : M.yk1E tk yk = Except.error u) :
    M.loopE tf (fuel + 1) tk yk acc = some (Except.error u) := by
  simp only [RKE.loopE, herr]

/-- Witness for C7: a derivative function that always raises makes the
very step fail, and the loop — seeded with the nonempty partial
trajectory `[(0, [1])]` — returns the bare failure. -/
theorem loopE_propagates_failure_witness :
    rkFailE.yk1E 0 [1] = Except.error () ∧
    rkFailE.loopE 1 1 0 [1] [(0, [1])] = some (Except.error ()) :=
  ⟨rkFailE_yk1E,
   loopE_propagates_failure rkFailE 1 0 [1] [(0, [1])] 0 () rkFailE_yk1E⟩

/-- Claim C8.  Every terminating run's trajectory starts with the
record `(t0, y0)` exactly as stored at construction: `aplicar` seeds
`pontos` with `[[t0, *y0]]` and the loop only appends. -/
theorem aplicar_first_record (M : RK) (tf : ℚ) (fuel : ℕ)
    (pts : List (ℚ × List ℚ)) (happ : M.aplicar tf fuel = some pts) :
    pts.head? = some (M.t0, M.y0) := by
  obtain ⟨ext, hext, -⟩ := M.loop_extends tf fuel M.t0 M.y0 _ pts happ
  rw [hext]
  rfl

/-- Witness for C8 on the run `rkUnit.aplicar 2 5`. -/
theorem aplicar_first_record_witness :
    ([(0, []), (1, []), (2, [])] : List (ℚ × List ℚ)).head? =
      some (rkUnit.t0, rkUnit.y0) :=
  aplicar_first_record rkUnit 2 5 [(0, []), (1, []), (2, [])] rkUnit_run2

/-- Claim C9.  In every terminating run's trajectory, each pair of
consecutive records — the pair ending at the final record included —
has instants exactly `h` apart. -/
theorem aplicar_step_spacing (M : RK) (tf : ℚ) (fuel : ℕ)
    (pts : List (ℚ × List ℚ)) (happ : M.aplicar tf fuel = some pts)
    (k : ℕ) (hk : k + 1 < pts.length) :
    (pts.getD (k+1) (0, [])).1 - (pts.getD k (0, [])).1 = M.h := by
  have hsp := M.loop_spaced tf fuel M.t0 M.y0 [(M.t0, M.y0)] pts happ
    ⟨M.y0, by simp⟩ (by intro j hj; simp at hj) k hk
  rw [hsp]
  ring

/-- Witness for C9 on the run `rkUnit.aplicar 3 9`, at the first pair of
records. -/
theorem aplicar_step_spacing_witness :
    (([(0, []), (1, []), (2, []), (3, [])] : List (ℚ × List ℚ)).getD 1 (0, [])).1 -
      (([(0, []), (1, []), (2, []), (3, [])] : List (ℚ × List ℚ)).getD 0 (0, [])).1 =
      rkUnit.h :=
  aplicar_step_spacing rkUnit 3 9 [(0, []), (1, []), (2, []), (3, [])]
    rkUnit_run3 0 (by norm_num)

/-- Claim C10.  The loop body runs once before the break condition is
first tested, so every terminating run returns at least two records —
the misuse case `tf ≤ t0` with `h > 0` included, where no error is
raised and the run stops right after the first step. -/
theorem aplicar_at_least_two_records (M : RK) (tf : ℚ) (fuel : ℕ)
    (pts : List (ℚ × List ℚ)) (happ : M.aplicar tf fuel = some pts) :
    2 ≤ pts.length := by
  obtain ⟨ext, hext, hne⟩ := M.loop_extends tf fuel M.t0 M.y0 _ pts happ
  rw [hext, List.length_append, List.length_singleton]
  have := List.length_pos.mpr hne
  omega

/-- Witness for C10 on the misuse run `rkUnit.aplicar (-5) 1`
(`tf = -5 ≤ t0 = 0`, `h = 1 > 0`): two records, no error. -/
theorem aplicar_at_least_two_records_witness :
    2 ≤ ([(0, []), (1, [])] : List (ℚ × List ℚ)).length :=
  aplicar_at_least_two_records rkUnit (-5) 1 [(0, []), (1, [])] rkUnit_runNeg
